import Mathlib

/-!
Verification of the libcurl callbacks transport adapter.

The development shallowly embeds the core of the transport adapter:
the status-line parser (`CreateHTTPResponse`), the header accumulator
(`StaticSetHeader`), the body-data callback (`ReceiveData`), the
framing decision and `Length` computation, and the `Send` orchestration
(cancellation check, backend configuration, method dispatch, transfer).
Bytes of header fragments are modelled as `List Char`; body bytes as
`List Nat`.  Fallible C++ code (throwing) is modelled with
`Option`/`Except`.  Machine-integer casts are explicit (`% 65536` for
the `uint16_t` casts, the `int` range check inside `stoi`).
-/

namespace CurlTransport

/-! ### Character classes and numeric conversion (C `isspace`/`isdigit`, `std::stoi`) -/

/-- ASCII digit test, as used by `std::stoi`'s digit scan (base 10). -/
def isDigitChar (c : Char) : Bool := 48 ≤ c.toNat && c.toNat ≤ 57

/-- C `isspace` in the C locale: space, \t, \n, \v, \f, \r. -/
def isSpaceChar (c : Char) : Bool := c.toNat = 32 || (9 ≤ c.toNat && c.toNat ≤ 13)

/-- Decimal value of a digit string, accumulator style. -/
def digitsVal : List Char → Nat → Nat
  | [], acc => acc
  | c :: t, acc => digitsVal t (acc * 10 + (c.toNat - 48))

/-- Largest value of a C `int` (32-bit). -/
def intMax : Int := 2147483647

/-- Smallest value of a C `int` (32-bit). -/
def intMin : Int := -2147483648

/-- Model of `std::stoi` (base 10): skip leading whitespace, read an
optional sign, then at least one digit; `none` models the
`invalid_argument` (no digits) and `out_of_range` (outside `int`)
exceptions. -/
def stoi (s : List Char) : Option Int :=
  let t := s.dropWhile isSpaceChar
  let neg : Bool := t.head? == some '-'
  let t2 := if t.head? == some '-' || t.head? == some '+' then t.drop 1 else t
  let ds := t2.takeWhile isDigitChar
  if ds.isEmpty then none
  else
    let n : Int := (digitsVal ds 0 : Int)
    let v : Int := if neg then -n else n
    if v < intMin ∨ intMax < v then none else some v

/-- ASCII lower-casing of one character, as
`Azure::Core::_internal::StringExtensions::ToLower` does per byte. -/
def toLowerChar (c : Char) : Char :=
  if 65 ≤ c.toNat ∧ c.toNat ≤ 90 then Char.ofNat (c.toNat + 32) else c

/-- ASCII lower-casing of a byte string. -/
def toLower (s : List Char) : List Char := s.map toLowerChar

/-! ### The lexer `GetNextToken`

`GetNextToken(begin, last, separator, mutator)` scans `[begin,last)` for
the first `separator` with `std::find`, builds the token from the bytes
before it and moves the cursor one past the separator.  We return the
token (before the mutator is applied) together with the advanced rest of
the input; the numeric mutator (`std::stoi`) is applied at the call
sites. -/
def GetNextToken (s : List Char) (sep : Char) : List Char × List Char :=
  (s.takeWhile (fun c => c != sep), (s.dropWhile (fun c => c != sep)).drop 1)

/-! ### The response shell (`RawResponse`) -/

/-- The part of `Azure::Core::Http::RawResponse` the adapter populates:
version, status, reason and the header map.  The header map is an
association list with the collaborator's documented last-write-wins
update. -/
structure RawResponseShell where
  majorVersion : Nat
  minorVersion : Nat
  statusCode : Int
  reasonPhrase : List Char
  headers : List (List Char × List Char)
  deriving DecidableEq

/-- `RawResponse::SetHeader`: insert or overwrite (last-write-wins) in
the header map, per the host SDK's documented interface. -/
def setHeader : List (List Char × List Char) → List Char → List Char →
    List (List Char × List Char)
  | [], k, v => [(k, v)]
  | (k0, v0) :: rest, k, v =>
      if k0 = k then (k0, v) :: rest else (k0, v0) :: setHeader rest k v

/-- `GetHeaders().find(key)` on the header map (exact key lookup; all
keys are stored lower-cased). -/
def findHeader : List (List Char × List Char) → List Char → Option (List Char)
  | [], _ => none
  | (k0, v0) :: rest, k => if k0 = k then some v0 else findHeader rest k

/-! ### The status-line parser `CreateHTTPResponse` -/

/-- Length of the literal `HTTP` scheme word (source constant). -/
def HttpWordLen : Nat := 4

/-- `CreateHTTPResponse(begin, last)`: skip `HTTP` plus the slash
(5 bytes), then lex major version (up to `.`), minor version (up to a
space), status code (up to a space) — all three through `std::stoi` —
and the reason phrase (up to `\r`).  The two version numbers pass
through a `static_cast<uint16_t>` (reduction mod 65536); the status code
is cast to the status-code enumeration, kept here as `Int`. -/
def CreateHTTPResponse (frag : List Char) : Option RawResponseShell :=
  let start0 := frag.drop (HttpWordLen + 1)
  let t1 := GetNextToken start0 '.'
  let t2 := GetNextToken t1.2 ' '
  let t3 := GetNextToken t2.2 ' '
  let t4 := GetNextToken t3.2 '\r'
  match stoi t1.1, stoi t2.1, stoi t3.1 with
  | some M, some m, some c =>
      some { majorVersion := (M % 65536).toNat, minorVersion := (m % 65536).toNat,
             statusCode := c, reasonPhrase := t4.1, headers := [] }
  | _, _, _ => none

/-! ### The header accumulator `StaticSetHeader` -/

/-- `StaticSetHeader(response, first, last)`: the exact two-byte
terminator fragment is ignored; a fragment with no `:` raises
`std::invalid_argument` (modelled as `Except.error ()`); otherwise the
name (bytes before the `:`) is lower-cased, leading spaces and tabs
after the `:` are skipped, the value stops at the first `\r`, and the
pair is written into the response's header map. -/
def StaticSetHeader (resp : RawResponseShell) (frag : List Char) :
    Except Unit RawResponseShell :=
  if frag = ['\r', '\n'] then Except.ok resp
  else if ':' ∈ frag then
    let name := frag.takeWhile (fun c => c != ':')
    let rest := (frag.dropWhile (fun c => c != ':')).drop 1
    let afterPad := rest.dropWhile (fun c => c == ' ' || c == '\t')
    let value := afterPad.takeWhile (fun c => c != '\r')
    Except.ok { resp with headers := setHeader resp.headers (toLower name) value }
  else Except.error ()

/-! ### The body-data callback `ReceiveData` -/

/-- `ReceiveData(contents, size, nmemb, userp)`: append the delivered
fragment of `size * nmemb` bytes at the end of the receive buffer with
`vector::insert(end, data, data + expectedSize)`, and return the
fragment size (libcurl's success signal). -/
def ReceiveData (buf : List Nat) (frag : List Nat) : List Nat × Nat :=
  (buf ++ frag, frag.length)

/-! ### Framing decision and `Length` -/

/-- Substring test at the head: does `hay` start with `needle`? -/
def isPrefixOfB : List Char → List Char → Bool
  | [], _ => true
  | _ :: _, [] => false
  | a :: as, b :: bs => a == b && isPrefixOfB as bs

/-- `std::string::find(needle) != npos`: does `hay` contain `needle`
as a contiguous substring? -/
def containsSub (needle : List Char) : List Char → Bool
  | [] => isPrefixOfB needle []
  | c :: t => isPrefixOfB needle (c :: t) || containsSub needle t

/-- The post-transfer framing decision (source lines 341-347):
`m_chunked` is true exactly when the final header map has a
`transfer-encoding` entry whose value contains the substring
`chunked`; it stays at its `false` initialisation otherwise. -/
def computeChunked (headers : List (List Char × List Char)) : Bool :=
  match findHeader headers ("transfer-encoding".toList) with
  | some v => containsSub ("chunked".toList) v
  | none => false

/-- `CurlSession::Length()`: `-1` when chunked, otherwise the inner
memory stream's length, which is the receive buffer's byte count. -/
def sessionLength (chunked : Bool) (streamLength : Int) : Int :=
  if chunked then -1 else streamLength

/-! ### The `Send` orchestration

`CurlSession::Send` is modelled as a function from the request, the
already-requested-cancellation flag of the context, the transfer result
code of `curl_easy_perform`, and the data the backend delivered through
the callbacks (the populated response shell and the receive-buffer
bytes), to the trace of context/backend calls made and the outcome.
`curl_easy_setopt` calls are modelled as succeeding (their failure
branches throw and abort the exchange in the source). -/

/-- The request methods the dispatcher distinguishes. -/
inductive HttpMethod
  | get | head | delete | patch | post | put
  deriving DecidableEq

/-- The fields of `Azure::Core::Http::Request` the adapter consumes:
URL, port, headers, method, and the body stream (its eager contents and
its reported length). -/
structure Request where
  url : List Char
  port : Nat
  headers : List (List Char × List Char)
  method : HttpMethod
  body : List Nat
  bodyLength : Int
  deriving DecidableEq

/-- The `CURLOPT_*` options the adapter sets. -/
inductive CurlOpt
  | url | port | httpheader | headerfunction | headerdata
  | writefunction | writedata | customrequest | nobody
  | postfields | upload | readfunction | readdata | infilesize
  deriving DecidableEq

/-- One observable call made by `Send`: the cancellation check on the
context, a header-list append, an option set, or the transfer itself. -/
inductive Event
  | checkCancel
  | slistAppend (line : List Char)
  | easySetopt (opt : CurlOpt)
  | easyPerform
  deriving DecidableEq

/-- Is the event the cancellation check? -/
def isCheck : Event → Bool
  | Event.checkCancel => true
  | _ => false

/-- The error `Send` raises when the context was already cancelled. -/
inductive SendError
  | cancelled
  deriving DecidableEq

/-- The libcurl easy-handle configuration accumulated by the
`curl_easy_setopt` calls.  `postFieldSize` mirrors
`CURLOPT_POSTFIELDSIZE`, which the source never sets (libcurl then
falls back to `strlen` of the NUL-terminated `CURLOPT_POSTFIELDS`
buffer). -/
structure CurlConfig where
  url : Option (List Char) := none
  port : Option Nat := none
  httpHeaderSet : Bool := false
  headerCallbackSet : Bool := false
  headerDataSet : Bool := false
  writeCallbackSet : Bool := false
  writeDataSet : Bool := false
  customRequest : Option (List Char) := none
  noBody : Bool := false
  postFields : Option (List Nat) := none
  postFieldSize : Option Nat := none
  uploadEnabled : Bool := false
  readCallbackSet : Bool := false
  readDataSet : Bool := false
  inFileSize : Option Int := none
  deriving DecidableEq

/-- What a completed `Send` hands back: the final backend
configuration, the final header list (`m_headerHandle`), the send
buffer (`m_sendBuffer`), the response shell populated by the header
callbacks, the framing flag `m_chunked`, and the receive-buffer bytes
backing the response body stream. -/
structure SendOutcome where
  config : CurlConfig
  slist : List (List Char)
  sendBuffer : List Nat
  response : RawResponseShell
  chunked : Bool
  bodyStream : List Nat
  deriving DecidableEq

/-- Serialisation of one request header for the backend header list:
`header.first + ":" + header.second` (source line 209). -/
def serializeHeader (kv : List Char × List Char) : List Char :=
  kv.1 ++ ':' :: kv.2

/-- Method-specific configuration (source lines 250-331): the updated
configuration, the updated header list, and the send buffer. -/
def applyMethod (req : Request) (cfg : CurlConfig) (slist : List (List Char)) :
    CurlConfig × List (List Char) × List Nat :=
  match req.method with
  | HttpMethod.get => (cfg, slist, [])
  | HttpMethod.delete => ({ cfg with customRequest := some ("DELETE".toList) }, slist, [])
  | HttpMethod.patch => ({ cfg with customRequest := some ("PATCH".toList) }, slist, [])
  | HttpMethod.head => ({ cfg with noBody := true }, slist, [])
  | HttpMethod.post =>
      let slist2 := slist ++ ["Expect:".toList]
      let buf := req.body ++ [0]
      ({ cfg with postFields := some buf }, slist2, buf)
  | HttpMethod.put =>
      let slist2 := slist ++ ["Expect:".toList]
      ({ cfg with uploadEnabled := true, readCallbackSet := true, readDataSet := true,
                  inFileSize := some req.bodyLength }, slist2, [])

/-- The events emitted by the method-specific configuration, in source
order. -/
def methodEvents (req : Request) : List Event :=
  match req.method with
  | HttpMethod.get => []
  | HttpMethod.delete => [Event.easySetopt CurlOpt.customrequest]
  | HttpMethod.patch => [Event.easySetopt CurlOpt.customrequest]
  | HttpMethod.head => [Event.easySetopt CurlOpt.nobody]
  | HttpMethod.post =>
      [Event.slistAppend ("Expect:".toList), Event.easySetopt CurlOpt.postfields]
  | HttpMethod.put =>
      [Event.slistAppend ("Expect:".toList), Event.easySetopt CurlOpt.upload,
       Event.easySetopt CurlOpt.readfunction, Event.easySetopt CurlOpt.readdata,
       Event.easySetopt CurlOpt.infilesize]

/-- `CurlSession::Send(request, context)`.  First statement:
`context.ThrowIfCancelled()`; when cancellation was already requested
it raises before any backend call.  Otherwise: URL and port options,
serialisation of the request headers into the backend header list
(registered with `CURLOPT_HTTPHEADER` only when the request has at
least one header), the four callback registrations, the
method-specific dispatch, and `curl_easy_perform` — whose result
`performResult` is assigned and never inspected.  The response shell
and body bytes delivered by the callbacks during the transfer are the
`delivered`/`deliveredBody` parameters; after the transfer `m_chunked`
is computed from the delivered headers and the outcome is returned. -/
def Send (cancelled : Bool) (req : Request) (performResult : Nat)
    (delivered : RawResponseShell) (deliveredBody : List Nat) :
    List Event × Except SendError SendOutcome :=
  if cancelled then ([Event.checkCancel], Except.error SendError.cancelled)
  else
    let slist1 := req.headers.map serializeHeader
    let cfg1 : CurlConfig :=
      { url := some req.url, port := some req.port,
        httpHeaderSet := !req.headers.isEmpty,
        headerCallbackSet := true, headerDataSet := true,
        writeCallbackSet := true, writeDataSet := true }
    let mres := applyMethod req cfg1 slist1
    let headerEvents := req.headers.map (fun kv => Event.slistAppend (serializeHeader kv))
    let httpHeaderEvent :=
      if req.headers.isEmpty then [] else [Event.easySetopt CurlOpt.httpheader]
    let trace := Event.checkCancel ::
      Event.easySetopt CurlOpt.url :: Event.easySetopt CurlOpt.port ::
      (headerEvents ++ httpHeaderEvent ++
       [Event.easySetopt CurlOpt.headerfunction, Event.easySetopt CurlOpt.headerdata,
        Event.easySetopt CurlOpt.writefunction, Event.easySetopt CurlOpt.writedata] ++
       methodEvents req ++ [Event.easyPerform])
    (trace, Except.ok
      { config := mres.1, slist := mres.2.1, sendBuffer := mres.2.2,
        response := delivered, chunked := computeChunked delivered.headers,
        bodyStream := deliveredBody })

/-! ### Helper lemmas about the lexer and about scans -/

lemma takeWhile_sep (sep : Char) (l1 l2 : List Char) (h : sep ∉ l1) :
    (l1 ++ sep :: l2).takeWhile (fun c => c != sep) = l1 := by
  induction l1 with
  | nil => simp [List.takeWhile_cons]
  | cons a t ih =>
      have ha : a ≠ sep := fun hc => h (hc ▸ List.mem_cons_self a t)
      have ht : sep ∉ t := fun hc => h (List.mem_cons_of_mem a hc)
      simp [List.takeWhile_cons, ha, ih ht]

lemma dropWhile_sep (sep : Char) (l1 l2 : List Char) (h : sep ∉ l1) :
    (l1 ++ sep :: l2).dropWhile (fun c => c != sep) = sep :: l2 := by
  induction l1 with
  | nil => simp [List.dropWhile_cons]
  | cons a t ih =>
      have ha : a ≠ sep := fun hc => h (hc ▸ List.mem_cons_self a t)
      have ht : sep ∉ t := fun hc => h (List.mem_cons_of_mem a hc)
      simp [List.dropWhile_cons, ha, ih ht]

lemma getNextToken_sep (sep : Char) (l1 l2 : List Char) (h : sep ∉ l1) :
    GetNextToken (l1 ++ sep :: l2) sep = (l1, l2) := by
  simp [GetNextToken, takeWhile_sep sep l1 l2 h, dropWhile_sep sep l1 l2 h]

lemma dropWhile_all (p : Char → Bool) (l1 l2 : List Char)
    (h : ∀ c ∈ l1, p c = true) :
    (l1 ++ l2).dropWhile p = l2.dropWhile p := by
  induction l1 with
  | nil => simp
  | cons a t ih =>
      have ha := h a (List.mem_cons_self a t)
      have ht : ∀ c ∈ t, p c = true := fun c hc => h c (List.mem_cons_of_mem a hc)
      simp [List.dropWhile_cons, ha, ih ht]

lemma dropWhile_head_false (p : Char → Bool) (l : List Char)
    (h : ∀ c ∈ l.head?, p c = false) : l.dropWhile p = l := by
  cases l with
  | nil => rfl
  | cons a t =>
      have ha := h a (by simp)
      simp [List.dropWhile_cons, ha]

lemma takeWhile_all (p : Char → Bool) (l : List Char)
    (h : ∀ c ∈ l, p c = true) : l.takeWhile p = l := by
  induction l with
  | nil => rfl
  | cons a t ih =>
      have ha := h a (List.mem_cons_self a t)
      have ht : ∀ c ∈ t, p c = true := fun c hc => h c (List.mem_cons_of_mem a hc)
      simp [List.takeWhile_cons, ha, ih ht]

/-! ### Helper lemmas about digits and `stoi` -/

lemma digit_facts {c : Char} (h : isDigitChar c = true) :
    c ≠ '.' ∧ c ≠ ' ' ∧ c ≠ '\r' ∧ c ≠ '-' ∧ c ≠ '+' ∧ isSpaceChar c = false := by
  simp only [isDigitChar, Bool.and_eq_true, decide_eq_true_eq] at h
  refine ⟨?_, ?_, ?_, ?_, ?_, ?_⟩
  · intro hc; subst hc; exact absurd h (by decide)
  · intro hc; subst hc; exact absurd h (by decide)
  · intro hc; subst hc; exact absurd h (by decide)
  · intro hc; subst hc; exact absurd h (by decide)
  · intro hc; subst hc; exact absurd h (by decide)
  · simp only [isSpaceChar, Bool.or_eq_false_iff, Bool.and_eq_false_iff,
      decide_eq_false_iff_not]
    omega

lemma stoi_digits (ds : List Char) (hne : ds ≠ [])
    (hd : ∀ c ∈ ds, isDigitChar c = true)
    (hbound : (digitsVal ds 0 : Int) ≤ intMax) :
    stoi ds = some ((digitsVal ds 0 : Int)) := by
  obtain ⟨d, t, rfl⟩ : ∃ d t, ds = d :: t := by
    cases ds with
    | nil => exact absurd rfl hne
    | cons d t => exact ⟨d, t, rfl⟩
  have hdd := hd d (List.mem_cons_self d t)
  obtain ⟨-, -, -, hm, hp, hsp⟩ := digit_facts hdd
  have hdrop : (d :: t).dropWhile isSpaceChar = d :: t :=
    dropWhile_head_false isSpaceChar (d :: t) (by intro c hc; simp at hc; subst hc; exact hsp)
  have htake : (d :: t).takeWhile isDigitChar = d :: t := takeWhile_all isDigitChar (d :: t) hd
  have hm2 : (some d == some '-') = false := by
    simp only [beq_eq_false_iff_ne, ne_eq, Option.some.injEq]; exact hm
  have hp2 : (some d == some '+') = false := by
    simp only [beq_eq_false_iff_ne, ne_eq, Option.some.injEq]; exact hp
  have hge : (0 : Int) ≤ (digitsVal (d :: t) 0 : Int) := Int.natCast_nonneg _
  have hnot : ¬((digitsVal (d :: t) 0 : Int) < intMin ∨
      intMax < (digitsVal (d :: t) 0 : Int)) := by
    simp only [intMin, intMax] at hbound ⊢
    omega
  simp [stoi, hdrop, htake, hm2, hp2, hnot]

/-! ### Concrete fixtures used by witnesses and counterexamples -/

/-- A delivered response shell: `HTTP/1.1 200 OK` with no headers. -/
def shell0 : RawResponseShell :=
  { majorVersion := 1, minorVersion := 1, statusCode := 200,
    reasonPhrase := "OK".toList, headers := [] }

/-- A delivered response shell whose headers carry
`transfer-encoding: chunked`. -/
def shellChunked : RawResponseShell :=
  { majorVersion := 1, minorVersion := 1, statusCode := 200,
    reasonPhrase := "OK".toList,
    headers := [("transfer-encoding".toList, "chunked".toList)] }

/-- A plain GET request. -/
def reqGet : Request :=
  { url := "http://example.test/a".toList, port := 80, headers := [],
    method := HttpMethod.get, body := [], bodyLength := 0 }

/-- A POST request with one header and a two-byte body. -/
def reqPost : Request :=
  { url := "http://example.test/a".toList, port := 80,
    headers := [("a".toList, "b".toList)],
    method := HttpMethod.post, body := [104, 105], bodyLength := 2 }

/-! ### The claims -/

/-- C7: a header fragment that is not the exact terminator `\r\n` and
contains no `:` byte makes the header accumulator fail with the
missing-delimiter parse error, and no header entry is written. -/
theorem C7_missing_delimiter (resp : RawResponseShell) (frag : List Char)
    (hterm : frag ≠ ['\r', '\n']) (hcolon : ':' ∉ frag) :
    StaticSetHeader resp frag = Except.error () := by
  simp [StaticSetHeader, hterm, hcolon]

theorem C7_missing_delimiter_witness :
    StaticSetHeader shell0 ['x'] = Except.error () :=
  C7_missing_delimiter shell0 ['x'] (by decide) (by decide)

/-- C8: the exact 2-byte terminator fragment `\r\n` is a no-op for the
header accumulator — the response comes back completely unchanged —
although the fragment contains no `:` delimiter. -/
theorem C8_terminator_noop (resp : RawResponseShell) :
    StaticSetHeader resp ['\r', '\n'] = Except.ok resp ∧
    ':' ∉ (['\r', '\n'] : List Char) :=
  ⟨by simp [StaticSetHeader], by decide⟩

/-- C9: the receive buffer is append-only — each `ReceiveData` delivery
keeps the previously buffered bytes as an unchanged prefix, appends
exactly the delivered fragment, reports the fragment's size back, and
folding any delivery sequence over an empty buffer yields the
concatenation of the fragments in delivery order. -/
theorem C9_receive_append_only (buf frag : List Nat) (frags : List (List Nat)) :
    (ReceiveData buf frag).1.take buf.length = buf ∧
    (ReceiveData buf frag).1.drop buf.length = frag ∧
    (ReceiveData buf frag).2 = frag.length ∧
    frags.foldl (fun b f => (ReceiveData b f).1) [] = frags.flatten := by
  refine ⟨List.take_left buf frag, List.drop_left buf frag, rfl, ?_⟩
  suffices h : ∀ (fs : List (List Nat)) (acc : List Nat),
      fs.foldl (fun b f => (ReceiveData b f).1) acc = acc ++ fs.flatten by
    simpa using h frags []
  intro fs
  induction fs with
  | nil => intro acc; simp
  | cons f t ih =>
      intro acc
      simp only [List.foldl_cons]
      rw [ih]
      simp [ReceiveData, List.append_assoc]

/-- C10: the status-line parser never inspects the first five bytes of
the first fragment — two fragments of equal length that agree from
index 5 onward parse to identical results, so a malformed scheme
prefix raises no error that a well-formed one would not. -/
theorem C10_prefix_not_inspected (f g : List Char)
    (hlen : f.length = g.length) (hsuffix : f.drop 5 = g.drop 5) :
    CreateHTTPResponse f = CreateHTTPResponse g := by
  have h5 : HttpWordLen + 1 = 5 := rfl
  simp only [CreateHTTPResponse, h5, hsuffix]

theorem C10_prefix_not_inspected_witness :
    CreateHTTPResponse ("XXXXX1.1 200 OK\r\n".toList) =
      CreateHTTPResponse ("HTTP/1.1 200 OK\r\n".toList) :=
  C10_prefix_not_inspected ("XXXXX1.1 200 OK\r\n".toList)
    ("HTTP/1.1 200 OK\r\n".toList) (by decide) (by decide)

@[simp] lemma isCheck_slistAppend (l : List Char) :
    isCheck (Event.slistAppend l) = false := rfl

@[simp] lemma isCheck_easySetopt (o : CurlOpt) :
    isCheck (Event.easySetopt o) = false := rfl

@[simp] lemma isCheck_easyPerform : isCheck Event.easyPerform = false := rfl

@[simp] lemma isCheck_checkCancel : isCheck Event.checkCancel = true := rfl

lemma countP_isCheck_headerEvents (hs : List (List Char × List Char)) :
    (hs.map (fun kv => Event.slistAppend (serializeHeader kv))).countP isCheck = 0 := by
  rw [List.countP_eq_zero]
  intro e he
  simp only [List.mem_map] at he
  obtain ⟨kv, -, rfl⟩ := he
  simp

lemma countP_isCheck_methodEvents (req : Request) :
    (methodEvents req).countP isCheck = 0 := by
  cases h : req.method <;> simp [methodEvents, h, List.countP_cons]

/-- C6: with a context whose cancellation is already requested, `Send`
fails with the cancellation error after making no backend call at all —
its only observable action is the one cancellation check; in every run
the cancellation check happens exactly once and is the very first
action, before the transfer. -/
theorem C6_cancellation_first (c : Bool) (req : Request) (pr : Nat)
    (d : RawResponseShell) (db : List Nat) :
    (c = true →
      Send c req pr d db = ([Event.checkCancel], Except.error SendError.cancelled)) ∧
    (Send c req pr d db).1.countP isCheck = 1 ∧
    (Send c req pr d db).1.head? = some Event.checkCancel := by
  cases c with
  | true => exact ⟨fun _ => rfl, rfl, rfl⟩
  | false =>
      have h1 : (Send false req pr d db).1 =
          Event.checkCancel :: Event.easySetopt CurlOpt.url ::
          Event.easySetopt CurlOpt.port ::
          ((req.headers.map fun kv => Event.slistAppend (serializeHeader kv)) ++
           (if req.headers.isEmpty then [] else [Event.easySetopt CurlOpt.httpheader]) ++
           [Event.easySetopt CurlOpt.headerfunction, Event.easySetopt CurlOpt.headerdata,
            Event.easySetopt CurlOpt.writefunction, Event.easySetopt CurlOpt.writedata] ++
           methodEvents req ++ [Event.easyPerform]) := rfl
      refine ⟨fun h => absurd h (by simp), ?_, ?_⟩
      · rw [h1]
        cases hE : req.headers.isEmpty <;>
          simp [hE, List.countP_cons, List.countP_append,
            countP_isCheck_headerEvents, countP_isCheck_methodEvents]
      · rw [h1]
        rfl

theorem C6_cancellation_first_witness :
    Send true reqGet 0 shell0 [] =
      ([Event.checkCancel], Except.error SendError.cancelled) :=
  (C6_cancellation_first true reqGet 0 shell0 []).1 rfl

/-- C4: the transfer result code of `curl_easy_perform` is assigned but
never inspected — with non-success result code 7
(`CURLE_COULDNT_CONNECT`) `Send` still returns the buffered response,
identically to a result-code-0 run, instead of failing as the claim and
the specification's intent require. -/
theorem C4_transfer_result_ignored :
    (Send false reqGet 7 shell0 []).2 = (Send false reqGet 0 shell0 []).2 ∧
    (Send false reqGet 7 shell0 []).2.isOk = true :=
  ⟨rfl, rfl⟩

/-- C5 counterexample: at the concrete POST request `reqPost` the
dispatcher hands the backend no length at all
(`CURLOPT_POSTFIELDSIZE` is never set), refuting the claim's
"pointer+length pair". -/
theorem C5_post_no_length :
    ¬ ∃ out, (Send false reqPost 0 shell0 []).2 = Except.ok out ∧
        out.config.postFieldSize.isSome = true := by
  rintro ⟨out, hok, hsz⟩
  have h2 : (Send false reqPost 0 shell0 []).2.toOption.map
      (fun o => o.config.postFieldSize) = some none := rfl
  rw [hok] at h2
  simp only [Except.toOption, Option.map_some', Option.some.injEq] at h2
  rw [h2] at hsz
  simp at hsz

/-- C5 (amended): for method POST the dispatcher appends the bare
`Expect:` header to the outgoing header list, reads the entire body
source eagerly into the send buffer, appends exactly one trailing NUL
byte, and hands the backend a pointer to that NUL-terminated buffer for
a single-shot send — with no explicit length (no
`CURLOPT_POSTFIELDSIZE`); the backend infers the length from the NUL
terminator. -/
theorem C5_post_dispatch (req : Request) (pr : Nat) (d : RawResponseShell)
    (db : List Nat) (hm : req.method = HttpMethod.post) :
    ∃ out, (Send false req pr d db).2 = Except.ok out ∧
      out.slist = req.headers.map serializeHeader ++ ["Expect:".toList] ∧
      out.sendBuffer = req.body ++ [0] ∧
      out.config.postFields = some (req.body ++ [0]) ∧
      out.config.postFieldSize = none := by
  refine ⟨_, rfl, ?_, ?_, ?_, ?_⟩ <;> simp [Send, applyMethod, hm]

theorem C5_post_dispatch_witness :
    ∃ out, (Send false reqPost 0 shell0 []).2 = Except.ok out ∧
      out.slist = reqPost.headers.map serializeHeader ++ ["Expect:".toList] ∧
      out.sendBuffer = reqPost.body ++ [0] ∧
      out.config.postFields = some (reqPost.body ++ [0]) ∧
      out.config.postFieldSize = none :=
  C5_post_dispatch reqPost 0 shell0 [] rfl

/-- C2: after a completed exchange, `Length()` is the unknown sentinel
`-1` exactly when the final header map has a `transfer-encoding` entry
whose value contains the substring `chunked`, regardless of how many
bytes were buffered; without such an entry it is exactly the number of
buffered body bytes. -/
theorem C2_length_framing (req : Request) (pr : Nat) (d : RawResponseShell)
    (db : List Nat) :
    ∃ out, (Send false req pr d db).2 = Except.ok out ∧
      ((∃ v, findHeader d.headers ("transfer-encoding".toList) = some v ∧
          containsSub ("chunked".toList) v = true) →
        sessionLength out.chunked (out.bodyStream.length) = -1) ∧
      ((∀ v, findHeader d.headers ("transfer-encoding".toList) = some v →
          containsSub ("chunked".toList) v = false) →
        sessionLength out.chunked (out.bodyStream.length) = (db.length : Int)) := by
  refine ⟨_, rfl, ?_, ?_⟩
  · rintro ⟨v, hfind, hsub⟩
    have hch : computeChunked d.headers = true := by
      unfold computeChunked
      rw [hfind]
      simpa using hsub
    show sessionLength (computeChunked d.headers) _ = -1
    rw [hch]
    rfl
  · intro hall
    have hch : computeChunked d.headers = false := by
      unfold computeChunked
      cases hf : findHeader d.headers ("transfer-encoding".toList) with
      | none => rfl
      | some v => simpa using hall v hf
    show sessionLength (computeChunked d.headers) ((db.length : Int)) = (db.length : Int)
    rw [hch]
    rfl

theorem C2_length_framing_witness :
    (∃ out, (Send false reqGet 0 shellChunked [5, 6, 7]).2 = Except.ok out ∧
      sessionLength out.chunked (out.bodyStream.length) = -1) ∧
    (∃ out, (Send false reqGet 0 shell0 [5, 6, 7]).2 = Except.ok out ∧
      sessionLength out.chunked (out.bodyStream.length) = 3) := by
  constructor
  · obtain ⟨out, hok, h1, -⟩ := C2_length_framing reqGet 0 shellChunked [5, 6, 7]
    exact ⟨out, hok, h1 ⟨"chunked".toList, by decide, by decide⟩⟩
  · obtain ⟨out, hok, -, h2⟩ := C2_length_framing reqGet 0 shell0 [5, 6, 7]
    refine ⟨out, hok, ?_⟩
    have := h2 (by intro v hv; simp [shell0, findHeader] at hv)
    simpa using this

/-- C3: a non-terminator header fragment `name: value\r\n` (with any
number of leading space or tab bytes before the value) makes the header
accumulator write into the response's header map the entry whose key is
`name` lower-cased and whose value is the value bytes with leading
spaces/tabs stripped and with the trailing `\r` (and everything from it
on) stripped. -/
theorem C3_header_parse (resp : RawResponseShell) (name pad value : List Char)
    (hname : ':' ∉ name)
    (hpad : ∀ c ∈ pad, c = ' ' ∨ c = '\t')
    (hvhead : ∀ c ∈ value.head?, c ≠ ' ' ∧ c ≠ '\t')
    (hvr : '\r' ∉ value) :
    StaticSetHeader resp (name ++ ':' :: (pad ++ (value ++ '\r' :: ['\n']))) =
      Except.ok { resp with
        headers := setHeader resp.headers (toLower name) value } := by
  have hcolon : ':' ∈ name ++ ':' :: (pad ++ (value ++ '\r' :: ['\n'])) := by simp
  have hterm : name ++ ':' :: (pad ++ (value ++ '\r' :: ['\n'])) ≠ ['\r', '\n'] := by
    intro h
    have hnot : ':' ∉ (['\r', '\n'] : List Char) := by decide
    exact hnot (h ▸ hcolon)
  have hpadB : ∀ c ∈ pad, (c == ' ' || c == '\t') = true := by
    intro c hc
    rcases hpad c hc with h | h <;> subst h <;> decide
  have hheadB : ∀ c ∈ (value ++ '\r' :: ['\n']).head?,
      (c == ' ' || c == '\t') = false := by
    cases value with
    | nil =>
        intro c hc
        simp only [List.nil_append, List.head?_cons, Option.mem_def,
          Option.some.injEq] at hc
        subst hc
        decide
    | cons v0 t =>
        intro c hc
        simp only [List.cons_append, List.head?_cons, Option.mem_def,
          Option.some.injEq] at hc
        subst hc
        have hv := hvhead v0 (by simp)
        simp only [Bool.or_eq_false_iff, beq_eq_false_iff_ne, ne_eq]
        exact ⟨hv.1, hv.2⟩
  have hname1 : (name ++ ':' :: (pad ++ (value ++ '\r' :: ['\n']))).takeWhile
      (fun c => c != ':') = name := takeWhile_sep ':' name _ hname
  have hname2 : (name ++ ':' :: (pad ++ (value ++ '\r' :: ['\n']))).dropWhile
      (fun c => c != ':') = ':' :: (pad ++ (value ++ '\r' :: ['\n'])) :=
    dropWhile_sep ':' name _ hname
  have hstep1 : (pad ++ (value ++ '\r' :: ['\n'])).dropWhile
      (fun c => c == ' ' || c == '\t') =
      (value ++ '\r' :: ['\n']).dropWhile (fun c => c == ' ' || c == '\t') :=
    dropWhile_all _ pad _ hpadB
  have hstep2 : (value ++ '\r' :: ['\n']).dropWhile
      (fun c => c == ' ' || c == '\t') = value ++ '\r' :: ['\n'] :=
    dropWhile_head_false _ _ hheadB
  have hval : (value ++ '\r' :: ['\n']).takeWhile (fun c => c != '\r') = value :=
    takeWhile_sep '\r' value ['\n'] hvr
  simp only [StaticSetHeader, if_neg hterm, if_pos hcolon, hname1, hname2,
    List.drop_succ_cons, List.drop_zero, hstep1, hstep2, hval]

theorem C3_header_parse_witness :
    StaticSetHeader shell0 ("Content-Type: text/plain\r\n".toList) =
      Except.ok { shell0 with
        headers := [("content-type".toList, "text/plain".toList)] } := by
  have h := C3_header_parse shell0 ("Content-Type".toList) [' ']
    ("text/plain".toList) (by decide)
    (by intro c hc; simp at hc; subst hc; decide)
    (by intro c hc; simp at hc; subst hc; decide)
    (by decide)
  exact h

/-- C1: for a well-formed first fragment
`HTTP/<M>.<m> <code> <reason>\r...`, where the three numeric fields are
nonempty digit strings in representable range and the reason contains no
`\r`, the status-line parser recovers exactly the major version, the
minor version, the status code as an integer, and the reason phrase
with the trailing `\r` and everything after it excluded. -/
theorem C1_status_line (Mds mds cds reason rest : List Char)
    (hM0 : Mds ≠ []) (hM : ∀ c ∈ Mds, isDigitChar c = true)
    (hm0 : mds ≠ []) (hm : ∀ c ∈ mds, isDigitChar c = true)
    (hc0 : cds ≠ []) (hc : ∀ c ∈ cds, isDigitChar c = true)
    (hr : '\r' ∉ reason)
    (hMb : digitsVal Mds 0 < 65536) (hmb : digitsVal mds 0 < 65536)
    (hcb : digitsVal cds 0 < 2147483648) :
    CreateHTTPResponse
      ('H' :: 'T' :: 'T' :: 'P' :: '/' ::
        (Mds ++ '.' :: (mds ++ ' ' :: (cds ++ ' ' :: (reason ++ '\r' :: rest)))))
      = some { majorVersion := digitsVal Mds 0, minorVersion := digitsVal mds 0,
               statusCode := (digitsVal cds 0 : Int), reasonPhrase := reason,
               headers := [] } := by
  have hMdot : '.' ∉ Mds := fun hmem => absurd (hM '.' hmem) (by decide)
  have hmsp : ' ' ∉ mds := fun hmem => absurd (hm ' ' hmem) (by decide)
  have hcsp : ' ' ∉ cds := fun hmem => absurd (hc ' ' hmem) (by decide)
  have h0 : ('H' :: 'T' :: 'T' :: 'P' :: '/' ::
      (Mds ++ '.' :: (mds ++ ' ' :: (cds ++ ' ' :: (reason ++ '\r' :: rest))))).drop
      (HttpWordLen + 1) =
      Mds ++ '.' :: (mds ++ ' ' :: (cds ++ ' ' :: (reason ++ '\r' :: rest))) := rfl
  have h1 := getNextToken_sep '.' Mds
    (mds ++ ' ' :: (cds ++ ' ' :: (reason ++ '\r' :: rest))) hMdot
  have h2 := getNextToken_sep ' ' mds
    (cds ++ ' ' :: (reason ++ '\r' :: rest)) hmsp
  have h3 := getNextToken_sep ' ' cds (reason ++ '\r' :: rest) hcsp
  have h4 := getNextToken_sep '\r' reason rest hr
  have s1 : stoi Mds = some ((digitsVal Mds 0 : Int)) :=
    stoi_digits Mds hM0 hM (by simp only [intMax]; omega)
  have s2 : stoi mds = some ((digitsVal mds 0 : Int)) :=
    stoi_digits mds hm0 hm (by simp only [intMax]; omega)
  have s3 : stoi cds = some ((digitsVal cds 0 : Int)) :=
    stoi_digits cds hc0 hc (by simp only [intMax]; omega)
  have hmod1 : ((digitsVal Mds 0 : Int) % 65536).toNat = digitsVal Mds 0 := by omega
  have hmod2 : ((digitsVal mds 0 : Int) % 65536).toNat = digitsVal mds 0 := by omega
  simp [CreateHTTPResponse, h0, h1, h2, h3, h4, s1, s2, s3, hmod1, hmod2]

theorem C1_status_line_witness :
    CreateHTTPResponse ("HTTP/1.1 200 OK\r\n".toList) =
      some { majorVersion := 1, minorVersion := 1, statusCode := 200,
             reasonPhrase := "OK".toList, headers := [] } := by
  have h := C1_status_line ['1'] ['1'] ['2', '0', '0'] ("OK".toList) ['\n']
    (by decide) (by decide) (by decide) (by decide) (by decide) (by decide)
    (by decide) (by decide) (by decide) (by decide)
  exact h

end CurlTransport
